import Mathlib

/-!
A shallow embedding of the go-restapi user service (src/main.go): the user
record, the in-memory datastore modelled as an association list keyed by the
user identifier, the regex path matchers, the four operation handlers of
userHandler, and the dispatch of userHandler.ServeHTTP.
-/

/-- The user record of src/main.go with its two JSON fields, id and name. -/
structure user where
  ID : String
  Name : String
  deriving DecidableEq, Repr

/-- The contents of the datastore map of src/main.go, modelled as an
association list of key-record pairs; Go map iteration order is irrelevant
to every claim, so the list order carries no meaning. -/
abbrev Store := List (String × user)

/-- The Go map read m[k]: the record stored at key k, if any. -/
def datastore.lookup (s : Store) (k : String) : Option user :=
  (s.find? (fun p => p.1 == k)).map Prod.snd

/-- The Go map write m[u.ID] = u performed by userHandler.Create: replace
the record wherever key u.ID is present, otherwise add the new pair. -/
def datastore.upsert (s : Store) (u : user) : Store :=
  if s.any (fun p => p.1 == u.ID) then
    s.map (fun p => if p.1 == u.ID then (u.ID, u) else p)
  else
    s ++ [(u.ID, u)]

/-- The Go builtin delete(m, k) performed by userHandler.Delete: remove the
pairs at key k (at most one in any state a Go map can reach); removing an
absent key is a no-op. -/
def datastore.erase (s : Store) (k : String) : Store :=
  s.filter (fun p => !(p.1 == k))

/-- Well-formedness that every Go map state enjoys by construction: the keys
are pairwise distinct. -/
def datastore.WF (s : Store) : Prop :=
  (s.map Prod.fst).Nodup

/-- The invariant of the data model: each key of the store equals the
identifier field of the record stored under it. -/
def datastore.KeysMatch (s : Store) : Bool :=
  s.all (fun p => p.1 == p.2.ID)

/-- The regex listUsersRe (identical to createUserRe) of src/main.go: it
matches exactly the paths made of /users followed by any number of further
slashes. -/
def listUsersRe (p : String) : Bool :=
  match p.toList with
  | '/' :: 'u' :: 's' :: 'e' :: 'r' :: 's' :: rest => rest.all (fun c => c == '/')
  | _ => false

/-- The regex getUserRe (identical to deleteUserRe) of src/main.go together
with its single capture group, as FindStringSubmatch reports it: the path
matches when /users/ is followed by decimal digits only - possibly none,
because the capture group over one-or-more digits is itself starred - and
the captured identifier is that digit string, the empty string when the
group matched zero times. The result none models no match at all, where
FindStringSubmatch returns fewer than two entries. -/
def getUserRe (p : String) : Option String :=
  match p.toList with
  | '/' :: 'u' :: 's' :: 'e' :: 'r' :: 's' :: '/' :: rest =>
    if rest.all Char.isDigit then some (String.mk rest) else none
  | _ => none

/-- The JSON document a handler writes as response body. -/
inductive RespBody where
  | usr (u : user)
  | list (us : List user)
  | err (msg : String)
  deriving DecidableEq, Repr

/-- Status code and body as one handler writes them, before the content-type
header set by ServeHTTP is accounted for. -/
structure RawResp where
  status : Nat
  body : RespBody
  deriving DecidableEq, Repr

/-- A complete response of userHandler.ServeHTTP, content-type included. -/
structure Response where
  status : Nat
  body : RespBody
  contentType : String
  deriving DecidableEq, Repr

/-- The HTTP methods the Go switch distinguishes; OTHER stands for every
further method. -/
inductive Method where
  | GET | POST | DELETE | OTHER
  deriving DecidableEq, Repr

/-- A request as the handlers consume it: method, URL path, and the outcome
of json.Decoder.Decode on the body - some u when the body decodes into a
user record (a JSON field that is absent leaves the Go zero value, the empty
string), none when decoding fails. -/
structure Request where
  method : Method
  path : String
  body : Option user

/-- The notFound helper of src/main.go: status 404, error body not found. -/
def notFound : RawResp :=
  ⟨404, RespBody.err "not found"⟩

/-- The badRequest helper of src/main.go: status 400, error body bad
request. -/
def badRequest : RawResp :=
  ⟨400, RespBody.err "bad request"⟩

/-- The internalServerError helper of src/main.go: status 500, error body
internal server error. Unreachable in this model: json.Marshal cannot fail
on the fixed record shapes, so no handler branch produces it. -/
def internalServerError : RawResp :=
  ⟨500, RespBody.err "internal server error"⟩

/-- userHandler.List: snapshot every record of the store and respond 200
with the JSON array. The Marshal failure branch of the Go code cannot fire
for a user slice and is not modelled. -/
def userHandler.List (s : Store) : RawResp :=
  ⟨200, RespBody.list (s.map Prod.snd)⟩

/-- userHandler.Get: extract the id via getUserRe.FindStringSubmatch, 404
when the path yields no submatch, 404 when the id is absent from the store,
else 200 with the record found. -/
def userHandler.Get (s : Store) (p : String) : RawResp :=
  match getUserRe p with
  | none => notFound
  | some id =>
    match datastore.lookup s id with
    | none => notFound
    | some u => ⟨200, RespBody.usr u⟩

/-- userHandler.Create: 400 on a body that fails to decode, leaving the
store untouched; on success, upsert the decoded record and respond 200
echoing it. -/
def userHandler.Create (s : Store) (b : Option user) : RawResp × Store :=
  match b with
  | none => (badRequest, s)
  | some u => (⟨200, RespBody.usr u⟩, datastore.upsert s u)

/-- userHandler.Delete: extract the id via getUserRe.FindStringSubmatch (the
Go code reuses getUserRe here), 404 when the path yields no submatch, 404
when the id is absent, else remove the key and respond 200 with the record
as last read. -/
def userHandler.Delete (s : Store) (p : String) : RawResp × Store :=
  match getUserRe p with
  | none => (notFound, s)
  | some id =>
    match datastore.lookup s id with
    | none => (notFound, s)
    | some u => (⟨200, RespBody.usr u⟩, datastore.erase s id)

/-- The switch of userHandler.ServeHTTP: dispatch on method and regex match
in exactly the order of the Go cases; no case matching falls to notFound. -/
def userHandler.dispatch (s : Store) (r : Request) : RawResp × Store :=
  if r.method = Method.GET ∧ listUsersRe r.path = true then
    (userHandler.List s, s)
  else if r.method = Method.GET ∧ (getUserRe r.path).isSome = true then
    (userHandler.Get s r.path, s)
  else if r.method = Method.POST ∧ listUsersRe r.path = true then
    userHandler.Create s r.body
  else if r.method = Method.DELETE ∧ (getUserRe r.path).isSome = true then
    userHandler.Delete s r.path
  else
    (notFound, s)

/-- userHandler.ServeHTTP: set the content-type header to application/json
before anything is written, then run the dispatch switch. -/
def userHandler.ServeHTTP (s : Store) (r : Request) : Response × Store :=
  (⟨(userHandler.dispatch s r).1.status, (userHandler.dispatch s r).1.body,
    "application/json"⟩, (userHandler.dispatch s r).2)

/-- The seed store built in main: the single record with id 1 and name
Charles. -/
def seedStore : Store :=
  [("1", ⟨"1", "Charles"⟩)]

/-- The store states reachable from main's seed under the two mutations the
handlers ever perform: the upsert of Create and the erase of Delete. -/
inductive Reachable : Store → Prop where
  | seed : Reachable seedStore
  | create (u : user) : Reachable s → Reachable (datastore.upsert s u)
  | delete (k : String) : Reachable s → Reachable (datastore.erase s k)

namespace datastore

theorem find?_map_self (s : Store) (u : user)
    (hany : s.any (fun p => p.1 == u.ID) = true) :
    List.find? (fun p => p.1 == u.ID)
      (s.map (fun p => if p.1 == u.ID then (u.ID, u) else p)) = some (u.ID, u) := by
  induction s with
  | nil => simp at hany
  | cons p rest ih =>
    rw [List.map_cons]
    by_cases hp : (p.1 == u.ID) = true
    · rw [if_pos hp]
      exact List.find?_cons_of_pos _ (by simp)
    · rw [if_neg hp, List.find?_cons_of_neg (p := fun q : String × user => q.1 == u.ID) _ hp]
      apply ih
      simp only [List.any_cons, Bool.or_eq_true] at hany
      exact hany.resolve_left hp

theorem find?_map_ne (s : Store) (u : user) (k : String) (hku : (u.ID == k) = false) :
    List.find? (fun p => p.1 == k)
      (s.map (fun p => if p.1 == u.ID then (u.ID, u) else p)) =
    List.find? (fun p => p.1 == k) s := by
  induction s with
  | nil => rfl
  | cons p rest ih =>
    rw [List.map_cons]
    by_cases hp : (p.1 == u.ID) = true
    · have hp1 : p.1 = u.ID := eq_of_beq hp
      rw [if_pos hp]
      rw [List.find?_cons_of_neg _ (by simp [hku])]
      rw [List.find?_cons_of_neg _ (by rw [hp1]; simp [hku])]
      exact ih
    · by_cases hpk : (p.1 == k) = true
      · rw [if_neg hp, List.find?_cons_of_pos (p := fun q : String × user => q.1 == k) _ hpk,
          List.find?_cons_of_pos (p := fun q : String × user => q.1 == k) _ hpk]
      · rw [if_neg hp, List.find?_cons_of_neg (p := fun q : String × user => q.1 == k) _ hpk,
          List.find?_cons_of_neg (p := fun q : String × user => q.1 == k) _ hpk]
        exact ih

theorem lookup_upsert_self (s : Store) (u : user) :
    lookup (upsert s u) u.ID = some u := by
  unfold upsert lookup
  split
  · rename_i hany
    rw [find?_map_self s u hany]
    rfl
  · rename_i hany
    have hnone : List.find? (fun p => p.1 == u.ID) s = none := by
      rw [List.find?_eq_none]
      intro x hx hpx
      exact hany (List.any_eq_true.mpr ⟨x, hx, hpx⟩)
    simp [List.find?_append, hnone]

theorem lookup_upsert_ne (s : Store) (u : user) (k : String) (hk : k ≠ u.ID) :
    lookup (upsert s u) k = lookup s k := by
  have hku : (u.ID == k) = false := beq_eq_false_iff_ne.mpr (Ne.symm hk)
  unfold upsert lookup
  split
  · rw [find?_map_ne s u k hku]
  · simp [List.find?_append, hku]

theorem length_upsert_of_lookup_some (s : Store) (u : user) (w : user)
    (h : lookup s u.ID = some w) :
    (upsert s u).length = s.length := by
  have hany : s.any (fun p => p.1 == u.ID) = true := by
    unfold lookup at h
    rcases Option.map_eq_some'.mp h with ⟨q, hq, _⟩
    have hmem := List.mem_of_find?_eq_some hq
    have hpred := List.find?_some hq
    exact List.any_eq_true.mpr ⟨q, hmem, hpred⟩
  unfold upsert
  rw [if_pos hany]
  exact List.length_map s _

theorem lookup_erase_self (s : Store) (k : String) :
    lookup (erase s k) k = none := by
  unfold erase lookup
  rw [Option.map_eq_none']
  rw [List.find?_eq_none]
  intro x hx
  have hxp := (List.mem_filter.mp hx).2
  simpa using hxp

theorem lookup_erase_ne (s : Store) (k k' : String) (hk : k' ≠ k) :
    lookup (erase s k) k' = lookup s k' := by
  unfold erase lookup
  induction s with
  | nil => rfl
  | cons p rest ih =>
    rw [List.filter_cons]
    by_cases hp : (p.1 == k) = true
    · have hp1 : p.1 = k := eq_of_beq hp
      have hpk : (p.1 == k') = false := by
        rw [hp1]
        exact beq_eq_false_iff_ne.mpr (Ne.symm hk)
      rw [if_neg (by simp [hp])]
      rw [List.find?_cons_of_neg _ (by simp [hpk])]
      exact ih
    · rw [if_pos (by simp [hp])]
      by_cases hpk : (p.1 == k') = true
      · rw [List.find?_cons_of_pos (p := fun q : String × user => q.1 == k') _ hpk,
          List.find?_cons_of_pos (p := fun q : String × user => q.1 == k') _ hpk]
      · rw [List.find?_cons_of_neg (p := fun q : String × user => q.1 == k') _ hpk,
          List.find?_cons_of_neg (p := fun q : String × user => q.1 == k') _ hpk]
        exact ih

theorem erase_of_lookup_none (s : Store) (k : String) (h : lookup s k = none) :
    erase s k = s := by
  unfold lookup at h
  rw [Option.map_eq_none', List.find?_eq_none] at h
  unfold erase
  rw [List.filter_eq_self]
  intro p hp
  simpa using h p hp

theorem length_erase_of_lookup_some (s : Store) (k : String) (u : user)
    (hwf : WF s) (h : lookup s k = some u) :
    (erase s k).length + 1 = s.length := by
  induction s with
  | nil => simp [lookup] at h
  | cons p rest ih =>
    rw [WF, List.map_cons, List.nodup_cons] at hwf
    by_cases hp : (p.1 == k) = true
    · have hp1 : p.1 = k := eq_of_beq hp
      have hrest : rest.filter (fun q => !(q.1 == k)) = rest := by
        rw [List.filter_eq_self]
        intro q hq
        have : q.1 ≠ k := by
          intro hqk
          exact hwf.1 (hp1 ▸ hqk ▸ List.mem_map.mpr ⟨q, hq, rfl⟩)
        simpa using this
      simp [erase, hp, hrest]
    · have hrest : lookup rest k = some u := by
        unfold lookup at h ⊢
        rwa [List.find?_cons_of_neg _ (by simpa using hp)] at h
      have := ih hwf.2 hrest
      simp only [erase, List.filter_cons] at *
      simp only [hp, Bool.not_false, if_true]
      simpa using this

theorem lookup_foldl_upsert_of_none (s : Store) (us : List user) (k : String)
    (h : ∀ v ∈ us, (v.ID == k) = false) :
    lookup (us.foldl upsert s) k = lookup s k := by
  induction us generalizing s with
  | nil => rfl
  | cons v rest ih =>
    rw [List.foldl_cons, ih (datastore.upsert s v) (fun w hw => h w (List.mem_cons_of_mem v hw))]
    exact lookup_upsert_ne s v k
      (fun hkv => by simpa [hkv] using h v (List.mem_cons_self v rest))

theorem keysMatch_upsert (s : Store) (u : user) (h : KeysMatch s = true) :
    KeysMatch (upsert s u) = true := by
  unfold KeysMatch at h ⊢
  rw [List.all_eq_true] at h ⊢
  unfold upsert
  split
  · intro p hp
    rcases List.mem_map.mp hp with ⟨q, hq, rfl⟩
    by_cases hq1 : (q.1 == u.ID) = true
    · simp [hq1]
    · simpa [hq1] using h q hq
  · intro p hp
    rcases List.mem_append.mp hp with h1 | h1
    · exact h p h1
    · simp at h1
      simp [h1]

theorem keysMatch_erase (s : Store) (k : String) (h : KeysMatch s = true) :
    KeysMatch (erase s k) = true := by
  unfold KeysMatch at h ⊢
  rw [List.all_eq_true] at h ⊢
  intro p hp
  exact h p (List.mem_filter.mp hp).1

theorem mem_map_snd_of_lookup (s : Store) (k : String) (u : user)
    (h : lookup s k = some u) : u ∈ s.map Prod.snd := by
  unfold lookup at h
  rcases Option.map_eq_some'.mp h with ⟨q, hq, hqu⟩
  exact hqu ▸ List.mem_map.mpr ⟨q, List.mem_of_find?_eq_some hq, rfl⟩

end datastore

namespace userHandler

theorem dispatch_GET_list (s : Store) (p : String) (b : Option user)
    (hl : listUsersRe p = true) :
    dispatch s ⟨Method.GET, p, b⟩ = (userHandler.List s, s) := by
  unfold dispatch
  rw [if_pos ⟨rfl, hl⟩]

theorem dispatch_GET_get (s : Store) (p : String) (b : Option user)
    (hl : listUsersRe p = false) (hg : (getUserRe p).isSome = true) :
    dispatch s ⟨Method.GET, p, b⟩ = (userHandler.Get s p, s) := by
  unfold dispatch
  rw [if_neg (by simp [hl]), if_pos ⟨rfl, hg⟩]

theorem dispatch_GET_nf (s : Store) (p : String) (b : Option user)
    (hl : listUsersRe p = false) (hg : getUserRe p = none) :
    dispatch s ⟨Method.GET, p, b⟩ = (notFound, s) := by
  unfold dispatch
  rw [if_neg (by simp [hl]), if_neg (by simp [hg]), if_neg (by simp), if_neg (by simp)]

theorem dispatch_POST (s : Store) (p : String) (b : Option user)
    (hl : listUsersRe p = true) :
    dispatch s ⟨Method.POST, p, b⟩ = userHandler.Create s b := by
  unfold dispatch
  rw [if_neg (by simp), if_neg (by simp), if_pos ⟨rfl, hl⟩]

theorem dispatch_POST_nf (s : Store) (p : String) (b : Option user)
    (hl : listUsersRe p = false) :
    dispatch s ⟨Method.POST, p, b⟩ = (notFound, s) := by
  unfold dispatch
  rw [if_neg (by simp), if_neg (by simp), if_neg (by simp [hl]), if_neg (by simp)]

theorem dispatch_DELETE (s : Store) (p : String) (b : Option user)
    (hg : (getUserRe p).isSome = true) :
    dispatch s ⟨Method.DELETE, p, b⟩ = userHandler.Delete s p := by
  unfold dispatch
  rw [if_neg (by simp), if_neg (by simp), if_neg (by simp), if_pos ⟨rfl, hg⟩]

theorem dispatch_DELETE_nf (s : Store) (p : String) (b : Option user)
    (hg : getUserRe p = none) :
    dispatch s ⟨Method.DELETE, p, b⟩ = (notFound, s) := by
  unfold dispatch
  rw [if_neg (by simp), if_neg (by simp), if_neg (by simp), if_neg (by simp [hg])]

theorem dispatch_OTHER (s : Store) (p : String) (b : Option user) :
    dispatch s ⟨Method.OTHER, p, b⟩ = (notFound, s) := by
  unfold dispatch
  rw [if_neg (by simp), if_neg (by simp), if_neg (by simp), if_neg (by simp)]

theorem serve_eq (s : Store) (r : Request) :
    ServeHTTP s r =
      (⟨(dispatch s r).1.status, (dispatch s r).1.body, "application/json"⟩,
        (dispatch s r).2) := rfl

end userHandler

/-- C1: in every store state reachable from main's seed map under the
Create upsert and the Delete erase, each key of the map equals the
identifier field of the record stored under it. -/
theorem reachable_store_keys_eq_id (s : Store) (h : Reachable s) :
    datastore.KeysMatch s = true := by
  induction h with
  | seed => decide
  | create u _ ih => exact datastore.keysMatch_upsert _ u ih
  | delete k _ ih => exact datastore.keysMatch_erase _ k ih

/-- Witness for C1 at a concrete reachable state: upsert Ada then delete
key 1, starting from the seed. -/
theorem reachable_store_keys_eq_id_witness :
    datastore.KeysMatch (datastore.erase (datastore.upsert seedStore ⟨"2", "Ada"⟩) "1") = true :=
  reachable_store_keys_eq_id _
    (Reachable.delete "1" (Reachable.create ⟨"2", "Ada"⟩ Reachable.seed))

/-- C2: after any finite sequence of Create upserts applied to any initial
store, the Get lookup of an id returns the record of the last upsert in the
sequence whose identifier is that id, whenever at least one exists. -/
theorem lookup_after_upserts_eq_last (s : Store) (us : List user) (k : String) (u : user)
    (h : us.reverse.find? (fun v => v.ID == k) = some u) :
    datastore.lookup (us.foldl datastore.upsert s) k = some u := by
  induction us generalizing s with
  | nil => simp at h
  | cons v rest ih =>
    rw [List.foldl_cons]
    rw [List.reverse_cons, List.find?_append] at h
    cases hr : rest.reverse.find? (fun v => v.ID == k) with
    | some w =>
      rw [hr, Option.or_some] at h
      exact ih (datastore.upsert s v) (hr.trans h)
    | none =>
      rw [hr, Option.none_or] at h
      have hrest : ∀ w ∈ rest, (w.ID == k) = false := by
        intro w hw
        have hnm := List.find?_eq_none.mp hr w (List.mem_reverse.mpr hw)
        simpa using hnm
      by_cases hv : (v.ID == k) = true
      · rw [List.find?_cons_of_pos (p := fun w : user => w.ID == k) _ hv] at h
        have hu : v = u := Option.some.inj h
        rw [datastore.lookup_foldl_upsert_of_none _ rest k hrest]
        rw [← hu, ← eq_of_beq hv]
        exact datastore.lookup_upsert_self s v
      · rw [List.find?_cons_of_neg (p := fun w : user => w.ID == k) _ hv] at h
        simp at h

/-- Witness for C2: three upserts on the empty store, ids 1, 2, 1 again;
the lookup of id 1 returns the third record. -/
theorem lookup_after_upserts_eq_last_witness :
    datastore.lookup
      (([⟨"1", "A"⟩, ⟨"2", "B"⟩, ⟨"1", "C"⟩] : List user).foldl datastore.upsert []) "1" =
      some ⟨"1", "C"⟩ :=
  lookup_after_upserts_eq_last [] [⟨"1", "A"⟩, ⟨"2", "B"⟩, ⟨"1", "C"⟩] "1" ⟨"1", "C"⟩
    (by decide)

/-- C3: a Delete through the handler followed by a Get of the same path
answers not found whether or not the id was present, and at the store level
a lookup right after an erase of the same key finds nothing. -/
theorem get_after_delete_not_found (s : Store) (p : String) (k : String) :
    userHandler.Get (userHandler.Delete s p).2 p = notFound
    ∧ datastore.lookup (datastore.erase s k) k = none := by
  constructor
  · unfold userHandler.Delete userHandler.Get
    cases hm : getUserRe p with
    | none => rfl
    | some j =>
      cases hl : datastore.lookup s j with
      | none => simp [hl]
      | some u => simp [hl, datastore.lookup_erase_self]
  · exact datastore.lookup_erase_self s k

/-- C4: an upsert whose id is already a key of the store replaces the old
record, Create accepts it with a 200 echo, and the length of the array that
List serializes is unchanged. -/
theorem upsert_existing_replaces_count_unchanged (s : Store) (u w : user)
    (h : datastore.lookup s u.ID = some w) :
    datastore.lookup (datastore.upsert s u) u.ID = some u
    ∧ userHandler.Create s (some u) = (⟨200, RespBody.usr u⟩, datastore.upsert s u)
    ∧ ((datastore.upsert s u).map Prod.snd).length = (s.map Prod.snd).length := by
  refine ⟨datastore.lookup_upsert_self s u, rfl, ?_⟩
  rw [List.length_map, List.length_map]
  exact datastore.length_upsert_of_lookup_some s u w h

/-- Witness for C4: overwrite the seed record id 1 with a new name. -/
theorem upsert_existing_replaces_count_unchanged_witness :
    datastore.lookup (datastore.upsert seedStore ⟨"1", "Bob"⟩) "1" = some ⟨"1", "Bob"⟩ :=
  (upsert_existing_replaces_count_unchanged seedStore ⟨"1", "Bob"⟩ ⟨"1", "Charles"⟩
    (by decide)).1

/-- C6: a body that fails to decode makes Create answer 400 with the bad
request error body, leaving the store exactly as it was; a body that
decodes to u makes Create upsert u and answer 200 echoing u, never 201,
with no distinction between insert and replace. -/
theorem create_error_atomic_success_echo (s : Store) (u : user) :
    userHandler.Create s none = (badRequest, s)
    ∧ badRequest.status = 400
    ∧ badRequest.body = RespBody.err "bad request"
    ∧ userHandler.Create s (some u) = (⟨200, RespBody.usr u⟩, datastore.upsert s u) :=
  ⟨rfl, rfl, rfl, rfl⟩

/-- C7: Delete answers 404 and leaves the store alone when the path carries
no id or the id is absent from the store; when the id is present it answers
200 carrying the removed record's last value and removes exactly that
record - the key disappears, every other key reads as before, and under the
distinct-keys well-formedness of a Go map the store shrinks by exactly one
entry; erasing a key that is already gone is a no-op, not an error. -/
theorem delete_semantics (s : Store) (p : String) (k : String) (u : user)
    (hwf : datastore.WF s) :
    (getUserRe p = none → userHandler.Delete s p = (notFound, s))
    ∧ (getUserRe p = some k → datastore.lookup s k = none →
        userHandler.Delete s p = (notFound, s))
    ∧ (getUserRe p = some k → datastore.lookup s k = some u →
        userHandler.Delete s p = (⟨200, RespBody.usr u⟩, datastore.erase s k)
        ∧ datastore.lookup (datastore.erase s k) k = none
        ∧ (∀ j, j ≠ k → datastore.lookup (datastore.erase s k) j = datastore.lookup s j)
        ∧ (datastore.erase s k).length + 1 = s.length)
    ∧ (datastore.lookup s k = none → datastore.erase s k = s) := by
  refine ⟨?_, ?_, ?_, fun hn => datastore.erase_of_lookup_none s k hn⟩
  · intro hm
    unfold userHandler.Delete
    simp only [hm]
  · intro hm hl
    unfold userHandler.Delete
    simp only [hm, hl]
  · intro hm hl
    refine ⟨?_, datastore.lookup_erase_self s k,
      fun j hj => datastore.lookup_erase_ne s k j hj,
      datastore.length_erase_of_lookup_some s k u hwf hl⟩
    unfold userHandler.Delete
    simp only [hm, hl]

/-- Witness for C7: deleting id 1 from the seed store answers 200 with the
Charles record and erases the key. -/
theorem delete_semantics_witness :
    userHandler.Delete seedStore "/users/1" =
      (⟨200, RespBody.usr ⟨"1", "Charles"⟩⟩, datastore.erase seedStore "1") :=
  ((delete_semantics seedStore "/users/1" "1" ⟨"1", "Charles"⟩
    (by unfold datastore.WF; decide)).2.2.1 (by decide) (by decide)).1

theorem userHandler.get_raw_cases (s : Store) (p : String) :
    userHandler.Get s p = notFound ∨ ∃ u, userHandler.Get s p = ⟨200, RespBody.usr u⟩ := by
  unfold userHandler.Get
  cases getUserRe p with
  | none => exact Or.inl rfl
  | some j =>
    cases hl : datastore.lookup s j with
    | none =>
      simp only [hl]
      exact Or.inl trivial
    | some u =>
      simp only [hl]
      exact Or.inr ⟨u, rfl⟩

theorem userHandler.create_raw_cases (s : Store) (b : Option user) :
    (userHandler.Create s b).1 = badRequest
    ∨ ∃ u, (userHandler.Create s b).1 = ⟨200, RespBody.usr u⟩ := by
  cases b with
  | none => exact Or.inl rfl
  | some u => exact Or.inr ⟨u, rfl⟩

theorem userHandler.delete_raw_cases (s : Store) (p : String) :
    (userHandler.Delete s p).1 = notFound
    ∨ ∃ u, (userHandler.Delete s p).1 = ⟨200, RespBody.usr u⟩ := by
  unfold userHandler.Delete
  cases getUserRe p with
  | none => exact Or.inl rfl
  | some j =>
    cases hl : datastore.lookup s j with
    | none =>
      simp only [hl]
      exact Or.inl trivial
    | some u =>
      simp only [hl]
      exact Or.inr ⟨u, rfl⟩

theorem userHandler.dispatch_raw_cases (s : Store) (r : Request) :
    (userHandler.dispatch s r).1 = notFound
    ∨ (userHandler.dispatch s r).1 = badRequest
    ∨ (userHandler.dispatch s r).1 = userHandler.List s
    ∨ ∃ u, (userHandler.dispatch s r).1 = ⟨200, RespBody.usr u⟩ := by
  unfold userHandler.dispatch
  split_ifs with h1 h2 h3 h4
  · exact Or.inr (Or.inr (Or.inl rfl))
  · rcases userHandler.get_raw_cases s r.path with h | ⟨u, h⟩
    · exact Or.inl h
    · exact Or.inr (Or.inr (Or.inr ⟨u, h⟩))
  · rcases userHandler.create_raw_cases s r.body with h | ⟨u, h⟩
    · exact Or.inr (Or.inl h)
    · exact Or.inr (Or.inr (Or.inr ⟨u, h⟩))
  · rcases userHandler.delete_raw_cases s r.path with h | ⟨u, h⟩
    · exact Or.inl h
    · exact Or.inr (Or.inr (Or.inr ⟨u, h⟩))
  · exact Or.inl rfl

/-- C8: every response of userHandler.ServeHTTP carries the content-type
application/json, and whenever the body is an error document its message is
one of not found, bad request, internal server error, with the status fixed
by the message - 404, 400 and 500 respectively. -/
theorem responses_json_and_error_shape (s : Store) (r : Request) :
    (userHandler.ServeHTTP s r).1.contentType = "application/json"
    ∧ ∀ msg, (userHandler.ServeHTTP s r).1.body = RespBody.err msg →
        (msg = "not found" ∧ (userHandler.ServeHTTP s r).1.status = 404)
        ∨ (msg = "bad request" ∧ (userHandler.ServeHTTP s r).1.status = 400)
        ∨ (msg = "internal server error"
            ∧ (userHandler.ServeHTTP s r).1.status = 500) := by
  refine ⟨rfl, ?_⟩
  intro msg h
  have hb : (userHandler.ServeHTTP s r).1.body = (userHandler.dispatch s r).1.body := rfl
  have hs : (userHandler.ServeHTTP s r).1.status = (userHandler.dispatch s r).1.status := rfl
  rw [hb] at h
  rw [hs]
  rcases userHandler.dispatch_raw_cases s r with hd | hd | hd | ⟨u, hd⟩
  · rw [hd] at h ⊢
    exact Or.inl ⟨(RespBody.err.inj h).symm, rfl⟩
  · rw [hd] at h ⊢
    exact Or.inr (Or.inl ⟨(RespBody.err.inj h).symm, rfl⟩)
  · rw [hd] at h
    simp [userHandler.List] at h
  · rw [hd] at h
    simp at h

/-- Witness for C8 at a concrete error response: GET of /users/abc. -/
theorem responses_json_and_error_shape_witness :
    (userHandler.ServeHTTP seedStore ⟨Method.GET, "/users/abc", none⟩).1.contentType
        = "application/json"
    ∧ (("not found" = "not found"
          ∧ (userHandler.ServeHTTP seedStore
              ⟨Method.GET, "/users/abc", none⟩).1.status = 404)
        ∨ ("not found" = "bad request"
            ∧ (userHandler.ServeHTTP seedStore
                ⟨Method.GET, "/users/abc", none⟩).1.status = 400)
        ∨ ("not found" = "internal server error"
            ∧ (userHandler.ServeHTTP seedStore
                ⟨Method.GET, "/users/abc", none⟩).1.status = 500)) :=
  ⟨(responses_json_and_error_shape seedStore ⟨Method.GET, "/users/abc", none⟩).1,
    (responses_json_and_error_shape seedStore ⟨Method.GET, "/users/abc", none⟩).2
      "not found" (by decide)⟩

/-- C5 as stated is false: when a record sits under the empty identifier,
DELETE of the path /users/ - whose suffix after /users/ is empty - answers
200 and not 404, because the starred capture group extracts the empty
string as the id and the handler finds and removes that record. -/
theorem empty_suffix_delete_not_404 :
    (userHandler.ServeHTTP [("", ⟨"", "X"⟩)] ⟨Method.DELETE, "/users/", none⟩).1.status = 200
    ∧ ¬ (userHandler.ServeHTTP [("", ⟨"", "X"⟩)]
          ⟨Method.DELETE, "/users/", none⟩).1.status = 404 := by
  decide

/-- C5 amended: a path matched by getUserRe is exactly /users/ followed by
a possibly empty run of decimal digits, and the extracted id is that digit
string - the empty string included; a path getUserRe rejects gives 404 for
DELETE, and for GET too unless the bare /users pattern matched, in which
case GET lists; POST on the bare pattern dispatches to Create; and a DELETE
whose extracted id is the empty string answers 404 exactly when the empty
key is absent from the store. -/
theorem path_id_contract (p : String) (s : Store) (b : Option user) :
    (∀ k, getUserRe p = some k → p = "/users/" ++ k ∧ k.data.all Char.isDigit = true)
    ∧ (getUserRe p = none →
        userHandler.ServeHTTP s ⟨Method.DELETE, p, b⟩
          = (⟨404, RespBody.err "not found", "application/json"⟩, s))
    ∧ (getUserRe p = none → listUsersRe p = false →
        userHandler.ServeHTTP s ⟨Method.GET, p, b⟩
          = (⟨404, RespBody.err "not found", "application/json"⟩, s))
    ∧ (listUsersRe p = true →
        userHandler.ServeHTTP s ⟨Method.GET, p, b⟩
          = (⟨200, RespBody.list (s.map Prod.snd), "application/json"⟩, s))
    ∧ (listUsersRe p = true →
        userHandler.ServeHTTP s ⟨Method.POST, p, b⟩
          = (⟨(userHandler.Create s b).1.status, (userHandler.Create s b).1.body,
              "application/json"⟩, (userHandler.Create s b).2))
    ∧ (getUserRe p = some "" → datastore.lookup s "" = none →
        userHandler.ServeHTTP s ⟨Method.DELETE, p, b⟩
          = (⟨404, RespBody.err "not found", "application/json"⟩, s)) := by
  refine ⟨?_, ?_, ?_, ?_, ?_, ?_⟩
  · intro k hk
    unfold getUserRe at hk
    split at hk
    · rename_i rest heq
      split at hk
      · rename_i hdig
        have hk2 : String.mk rest = k := Option.some.inj hk
        constructor
        · apply String.ext
          rw [String.data_append]
          have hlit : ("/users/" : String).data = ['/', 'u', 's', 'e', 'r', 's', '/'] := by
            decide
          rw [hlit, ← hk2]
          exact heq
        · rw [← hk2]
          exact hdig
      · cases hk
    · cases hk
  · intro hm
    rw [userHandler.serve_eq, userHandler.dispatch_DELETE_nf s p b hm]
    rfl
  · intro hm hl
    rw [userHandler.serve_eq, userHandler.dispatch_GET_nf s p b hl hm]
    rfl
  · intro hl
    rw [userHandler.serve_eq, userHandler.dispatch_GET_list s p b hl]
    rfl
  · intro hl
    rw [userHandler.serve_eq, userHandler.dispatch_POST s p b hl]
  · intro hm hl
    have hd : userHandler.Delete s p = (notFound, s) := by
      unfold userHandler.Delete
      simp only [hm, hl]
    rw [userHandler.serve_eq, userHandler.dispatch_DELETE s p b (by rw [hm]; rfl), hd]
    rfl

/-- Witness for the amended C5: GET /users/abc answers 404 not found, and
the id captured from /users/12 is the digit string 12. -/
theorem path_id_contract_witness :
    userHandler.ServeHTTP seedStore ⟨Method.GET, "/users/abc", none⟩
      = (⟨404, RespBody.err "not found", "application/json"⟩, seedStore)
    ∧ ("/users/12" = "/users/" ++ "12"
        ∧ ("12" : String).data.all Char.isDigit = true) :=
  ⟨(path_id_contract "/users/abc" seedStore none).2.2.1 (by decide) (by decide),
    (path_id_contract "/users/12" seedStore none).1 "12" (by decide)⟩

/-- C10 as stated is false in its DELETE part: a record created over HTTP
under the empty identifier is removed by DELETE of the path /users/, which
answers 200 and leaves the empty key absent. -/
theorem emptyid_delete_removes_counterexample :
    (userHandler.ServeHTTP (userHandler.Create seedStore (some ⟨"", "Ghost"⟩)).2
        ⟨Method.DELETE, "/users/", none⟩).1.status = 200
    ∧ datastore.lookup
        (userHandler.ServeHTTP (userHandler.Create seedStore (some ⟨"", "Ghost"⟩)).2
          ⟨Method.DELETE, "/users/", none⟩).2 "" = none := by
  decide

/-- C10 amended: a decoded body whose identifier is the empty string is
accepted by Create with a 200 echo and stored under the empty key, where
the List array shows it; no GET can reach it through the Get handler, since
the only path whose extracted id is empty also matches the bare list
pattern, which wins the GET dispatch; but DELETE of /users/ does reach it,
answers 200 with the record, and removes it. -/
theorem emptyid_record_listed_hidden_from_get_deletable
    (s : Store) (u : user) (b : Option user) (p : String) (hid : u.ID = "") :
    userHandler.Create s (some u) = (⟨200, RespBody.usr u⟩, datastore.upsert s u)
    ∧ datastore.lookup (datastore.upsert s u) "" = some u
    ∧ u ∈ (datastore.upsert s u).map Prod.snd
    ∧ (getUserRe p = some "" → listUsersRe p = true)
    ∧ (getUserRe p = some "" →
        userHandler.ServeHTTP (datastore.upsert s u) ⟨Method.GET, p, b⟩
          = (⟨200, RespBody.list ((datastore.upsert s u).map Prod.snd),
              "application/json"⟩, datastore.upsert s u))
    ∧ (userHandler.ServeHTTP (datastore.upsert s u) ⟨Method.DELETE, "/users/", b⟩).1
        = ⟨200, RespBody.usr u, "application/json"⟩
    ∧ datastore.lookup
        (userHandler.ServeHTTP (datastore.upsert s u) ⟨Method.DELETE, "/users/", b⟩).2 ""
        = none := by
  have hlk : datastore.lookup (datastore.upsert s u) "" = some u := by
    rw [← hid]
    exact datastore.lookup_upsert_self s u
  have hglist : getUserRe p = some "" → listUsersRe p = true := by
    intro hq
    unfold getUserRe at hq
    split at hq
    · rename_i rest heq
      split at hq
      · have h2 : rest = ("" : String).data := congrArg String.data (Option.some.inj hq)
        have hrest : rest = [] := h2
        subst hrest
        unfold listUsersRe
        rw [heq]
        rfl
      · cases hq
    · cases hq
  have hm0 : getUserRe "/users/" = some "" := by decide
  have hdel : userHandler.Delete (datastore.upsert s u) "/users/" =
      (⟨200, RespBody.usr u⟩, datastore.erase (datastore.upsert s u) "") := by
    unfold userHandler.Delete
    simp only [hm0, hlk]
  refine ⟨rfl, hlk, datastore.mem_map_snd_of_lookup _ "" u hlk, hglist, ?_, ?_, ?_⟩
  · intro hp
    rw [userHandler.serve_eq, userHandler.dispatch_GET_list _ _ _ (hglist hp)]
    rfl
  · rw [userHandler.serve_eq, userHandler.dispatch_DELETE _ _ _ (by rw [hm0]; rfl), hdel]
  · rw [userHandler.serve_eq, userHandler.dispatch_DELETE _ _ _ (by rw [hm0]; rfl), hdel]
    exact datastore.lookup_erase_self _ ""

/-- Witness for the amended C10: the Ghost record under the empty id,
upserted over the seed store, is returned and removed by DELETE /users/. -/
theorem emptyid_record_hidden_witness :
    (userHandler.ServeHTTP (datastore.upsert seedStore ⟨"", "Ghost"⟩)
        ⟨Method.DELETE, "/users/", none⟩).1
      = ⟨200, RespBody.usr ⟨"", "Ghost"⟩, "application/json"⟩ :=
  (emptyid_record_listed_hidden_from_get_deletable seedStore ⟨"", "Ghost"⟩ none "/users/"
    rfl).2.2.2.2.2.1

